import Mathlib

/-!
Shallow embedding of the SuperNova prover-verifier (jules/supernova).

The embedding mirrors `src/lib.rs`, `src/commitment.rs`, `src/errors.rs` and the
committed-relaxed-R1CS iteration in `src/arithmetization/r1cs.rs`; the divergent
duplicate iteration in `src/arithmetization/r1cs/circuit.rs` is embedded separately
where a claim cites it.  The external collaborators (the arkworks curve layer and
the Poseidon sponge) are modelled as follows: the BLS12-381 base field is `ZMod`
of its actual modulus, affine `G1` points carry the arkworks infinity flag with the
standard short-Weierstrass addition law, and every Poseidon `absorb*/squeeze` pair
is a function parameter `squeeze : List Fq → Fq` applied to the exact list of field
elements the source absorbs, in the source's order.  Every call of
`G1Affine::rand(&mut OsRng)` in the source is modelled by an explicit entropy
argument holding the sampled point.  Rust panics (out-of-bounds indexing,
`rayon`'s `zip_eq` length mismatch) are modelled by `Option`, with `none` for the
panic.
-/

namespace Supernova

/-- Modulus of the BLS12-381 base field `Fq` of `ark_bls12_381`, the field over
which the source hashes, folds and commits. -/
def blsBasePrime : Nat :=
  4002409555221667393417789825735904156556882819939007885332058136124031650490837864442687629129015664037894272559787

/-- The scalar/transcript field of the source (`ark_bls12_381::Fq`). -/
abbrev Fq : Type := ZMod blsBasePrime

/-- Modulus of the BLS12-381 scalar field `Fr`, used by the `circuit.rs` iteration
for its `hash` field. -/
def blsScalarPrime : Nat :=
  52435875175126190479447740508185965837690552500527637822603658699938581184513

/-- The scalar field `ark_bls12_381::Fr` (only the `circuit.rs` iteration stores a
value of it). -/
abbrev Fr : Type := ZMod blsScalarPrime

/-- An affine BLS12-381 `G1` point in the arkworks representation: two base-field
coordinates and an explicit infinity flag. -/
structure G1Affine where
  x : Fq
  y : Fq
  infinity : Bool
deriving DecidableEq

/-- The arkworks identity point: both coordinates zero with the infinity flag set. -/
def G1Affine.identity : G1Affine := { x := 0, y := 0, infinity := true }

/-- Doubling on the curve y² = x³ + 4 (the arkworks group law; an external
collaborator of the source). -/
def G1Affine.double (p : G1Affine) : G1Affine :=
  if p.infinity ∨ p.y = 0 then G1Affine.identity
  else
    let l : Fq := (3 * p.x ^ 2) * (2 * p.y)⁻¹
    let x3 := l ^ 2 - 2 * p.x
    { x := x3, y := l * (p.x - x3) - p.y, infinity := false }

/-- Addition of affine points with infinity handling (the arkworks group law; an
external collaborator of the source). -/
def G1Affine.add (p q : G1Affine) : G1Affine :=
  if p.infinity then q
  else if q.infinity then p
  else if p.x = q.x then
    (if p.y = -q.y then G1Affine.identity else p.double)
  else
    let l : Fq := (q.y - p.y) * (q.x - p.x)⁻¹
    let x3 := l ^ 2 - p.x - q.x
    { x := x3, y := l * (p.x - x3) - p.y, infinity := false }

/-- Scalar multiplication by a natural number, as iterated addition (the value the
arkworks double-and-add computes for group elements). -/
def G1Affine.mulNat : Nat → G1Affine → G1Affine
  | 0, _ => G1Affine.identity
  | n + 1, p => (G1Affine.mulNat n p).add p

/-- The three-element unrolling `(p.x, p.y, Fq::from(p.infinity))` the source
absorbs for a point. -/
def G1Affine.xyb (p : G1Affine) : List Fq :=
  [p.x, p.y, if p.infinity then 1 else 0]

/-- commitment.rs `commit`: the source zips generators and scalars with rayon's
`zip_eq`, which panics when the lengths differ (modelled as `none`), scales each
generator by its scalar and reduces the products starting from the identity. -/
def commit (generators : List G1Affine) (scalars : List Fq) : Option G1Affine :=
  if generators.length = scalars.length then
    some (((generators.zip scalars).map fun gs =>
      G1Affine.mulNat gs.2.val gs.1).foldl G1Affine.add G1Affine.identity)
  else none

/-- arkworks `ConstraintMatrices<Fq>`, as held in the `shape` field: sparse rows of
`(coefficient, column)` pairs over the vector `z`. -/
structure ConstraintMatrices where
  num_instance_variables : Nat
  num_witness_variables : Nat
  num_constraints : Nat
  a_num_non_zero : Nat
  b_num_non_zero : Nat
  c_num_non_zero : Nat
  a : List (List (Fq × Nat))
  b : List (List (Fq × Nat))
  c : List (List (Fq × Nat))
deriving DecidableEq

/-- The committed relaxed R1CS pair of `src/arithmetization/r1cs.rs` (`struct R1CS`).
The Rust field `instance` is a reserved word in Lean and is embedded as
`instanceVec`. -/
structure R1CS where
  shape : ConstraintMatrices
  param : Fq
  comm_witness : G1Affine
  comm_E : G1Affine
  comm_T : G1Affine
  E : List Fq
  witness : List Fq
  instanceVec : List Fq
  u : Fq
  hash : Fq
  output : List Fq
deriving DecidableEq

/-- One row of the sparse matrix-vector product inside `eval_r1cs`: the fold
`acc + coeff * z[val]` over the row.  The source indexes `z[*val]` directly, a
panic when out of range; the shapes the program builds keep every column index in
range, and the embedding reads `0` there. -/
def sparseRowDot (row : List (Fq × Nat)) (z : List Fq) : Fq :=
  row.foldl (fun acc cv => acc + cv.1 * z.getD cv.2 0) 0

/-- The vector `z = (u | instance | witness)` built by `eval_r1cs`. -/
def R1CS.zVec (self : R1CS) : List Fq :=
  self.u :: (self.instanceVec ++ self.witness)

/-- `A·z` of `eval_r1cs`. -/
def R1CS.evalAz (self : R1CS) : List Fq :=
  self.shape.a.map (sparseRowDot · self.zVec)

/-- `B·z` of `eval_r1cs`. -/
def R1CS.evalBz (self : R1CS) : List Fq :=
  self.shape.b.map (sparseRowDot · self.zVec)

/-- `C·z` of `eval_r1cs`. -/
def R1CS.evalCz (self : R1CS) : List Fq :=
  self.shape.c.map (sparseRowDot · self.zVec)

/-- r1cs.rs `has_crossterms`: a non-zero error entry, or a relaxation scalar away
from one. -/
def R1CS.has_crossterms (self : R1CS) : Bool :=
  self.E.any (fun v => decide (¬ v = 0)) || decide (¬ self.u = 1)

/-- r1cs.rs `is_satisfied`: checks the row equations `az*bz = u*cz + E` for the
first `num_constraints` rows and then returns true, the commitment comparison
being commented out in the source. -/
def R1CS.is_satisfied (self : R1CS) (_generators : List G1Affine) : Bool :=
  (List.range self.shape.num_constraints).all fun idx =>
    decide (self.evalAz.getD idx 0 * self.evalBz.getD idx 0
      = self.u * self.evalCz.getD idx 0 + self.E.getD idx 0)

/-- r1cs.rs accessor `params`: the stored shape digest. -/
def R1CS.params (self : R1CS) : Fq := self.param

/-- r1cs.rs `crossterms`: the error-commitment unrolling followed by `u`, as
absorbed by `hash_public_io`. -/
def R1CS.crossterms (self : R1CS) : List Fq :=
  self.comm_E.xyb ++ [self.u]

/-- r1cs.rs `z0`: as many zero scalars as the output has entries. -/
def R1CS.z0 (self : R1CS) : List Fq :=
  List.replicate self.output.length 0

/-- The cross-term vector `t` of `commit_t`: the nested `zip` chain over
`(az1, bz2, az2, bz1, cz1, cz2)` mapped through
`az1*bz2 + az2*bz1 - u*cz2 - cz1`. -/
def R1CS.crossTermVec (self other : R1CS) : List Fq :=
  (((((self.evalAz.zip other.evalBz).zip other.evalAz).zip self.evalBz).zip
      self.evalCz).zip other.evalCz).map
    fun v => v.1.1.1.1.1 * v.1.1.1.1.2 + v.1.1.1.2 * v.1.1.2 - self.u * v.2 - v.1.2

/-- r1cs.rs `commit_t`: commits to the cross-term vector; when the commitment is
the point at infinity the source replaces it by `G1Affine::rand(&mut OsRng)`,
modelled by the `entropy` point.  `none` models the `zip_eq` panic inside
`commit`. -/
def R1CS.commit_t (self other : R1CS) (generators : List G1Affine)
    (entropy : G1Affine) : Option (List Fq × G1Affine) :=
  let t := self.crossTermVec other
  match commit generators t with
  | none => none
  | some cT => some (t, if cT.infinity then entropy else cT)

/-- The list of field elements the native `fold` absorbs before squeezing the
folding randomness `r` (r1cs.rs lines 316-335): note the final point is the
*stored* `self.comm_T`, absorbed before `commit_t` runs. -/
def R1CS.foldTranscript (self other : R1CS) (params : Fq) : List Fq :=
  params :: (self.comm_witness.xyb ++ self.comm_E.xyb ++ [self.u, self.hash]
    ++ other.comm_witness.xyb ++ [other.hash] ++ self.comm_T.xyb)

/-- r1cs.rs `fold`, the native folding operator.  `squeeze` is the Poseidon
sponge over `constants` applied to the absorbed list; `entropy` models the random
point drawn inside `commit_t` when the cross-term commitment is at infinity.
The result is the mutated `self`; `none` models the panic of `commit`. -/
def R1CS.fold (squeeze : List Fq → Fq) (self other : R1CS)
    (generators : List G1Affine) (params : Fq) (entropy : G1Affine) :
    Option R1CS :=
  let r := squeeze (self.foldTranscript other params)
  match self.commit_t other generators entropy with
  | none => none
  | some tc =>
    some { self with
      witness := List.zipWith (fun w1 w2 => w1 + w2 * r) self.witness other.witness
      instanceVec :=
        List.zipWith (fun x1 x2 => x1 + x2 * r) self.instanceVec other.instanceVec
      comm_witness := self.comm_witness.add (G1Affine.mulNat r.val other.comm_witness)
      E := List.zipWith (fun a b => a + r * b) self.E tc.1
      comm_E := self.comm_E.add (G1Affine.mulNat r.val self.comm_T)
      u := self.u + r
      comm_T := tc.2
      hash := self.hash + other.hash * r }

/-- The inputs that determine the deterministic part of `synthesize`: the receiver
slot and the arguments of the call.  The arkworks constraint-system construction
(allocations, Poseidon gadget, the user step circuit) is a pure function of these,
abstracted below as a `gadget` parameter. -/
structure SynthInput where
  slot : R1CS
  params : Fq
  latest_witness : G1Affine
  latest_hash : Fq
  old_pc : Nat
  new_pc : Nat
  i : Nat
deriving DecidableEq

/-- What the finalized constraint system of `synthesize` yields: the matrices, the
witness assignment, the instance assignment past the leading constant, the values
of the step-circuit output wires, and the value of the single public hash input. -/
structure GadgetOut where
  shape : ConstraintMatrices
  witnessAssignment : List Fq
  instanceAssignment : List Fq
  output : List Fq
  hash : Fq
deriving DecidableEq

/-- r1cs.rs `synthesize` (its state-changing tail, lines 282-306): stores the new
output on the receiver and builds the fresh pair with `u = 1`, a zero error vector
of length `num_constraints`, an honest witness commitment, and `comm_E`, `comm_T`
drawn from `OsRng` (the two entropy points).  Returns the mutated receiver
together with the fresh pair; `none` models the `commit` panic. -/
def R1CS.synthesize (gadget : SynthInput → GadgetOut) (self : R1CS)
    (params : Fq) (latest_witness : G1Affine) (latest_hash : Fq)
    (old_pc new_pc i : Nat) (generators : List G1Affine)
    (entropyCommE entropyCommT : G1Affine) : Option (R1CS × R1CS) :=
  let g := gadget ⟨self, params, latest_witness, latest_hash, old_pc, new_pc, i⟩
  match commit generators g.witnessAssignment with
  | none => none
  | some cw =>
    some ({ self with output := g.output },
      { shape := g.shape
        param := self.param
        comm_witness := cw
        comm_E := entropyCommE
        comm_T := entropyCommT
        E := List.replicate g.shape.num_constraints 0
        witness := g.witnessAssignment
        instanceVec := g.instanceAssignment
        u := 1
        hash := g.hash
        output := [] })

/-- The committed relaxed R1CS pair of the duplicate iteration in
`src/arithmetization/r1cs/circuit.rs` (`struct R1CS<C: StepCircuit<Fq>>`): same
data as the r1cs.rs iteration except that no shape digest is stored, the hash
lives in the scalar field `Fr`, and the step circuit rides along. -/
structure CR1CS (C : Type) where
  shape : ConstraintMatrices
  comm_witness : G1Affine
  comm_E : G1Affine
  comm_T : G1Affine
  E : List Fq
  witness : List Fq
  instanceVec : List Fq
  u : Fq
  hash : Fr
  output : List Fq
  circuit : C

/-- circuit.rs `has_crossterms` (lines 144-146): a non-zero error entry *and* a
relaxation scalar away from one — a conjunction, where the r1cs.rs iteration and
the specification use a disjunction. -/
def CR1CS.has_crossterms {C : Type} (self : CR1CS C) : Bool :=
  self.E.any (fun v => decide (¬ v = 0)) && decide (¬ self.u = 1)

/-- errors.rs `VerificationError` over the scalar type `Fq`. -/
inductive VerificationError where
  | ExpectedBaseCase : VerificationError
  | HashMismatch : Fq → Fq → VerificationError
  | PCOutOfRange : Nat → Nat → VerificationError
  | UnexpectedCrossterms : VerificationError
  | UnsatisfiedCircuit : VerificationError
deriving DecidableEq

/-- lib.rs `Proof<A, L>` instantiated at the r1cs.rs arithmetization; the slot
array is a list of length `L`.  The Poseidon constants the structure stores are
represented by the `squeeze` parameters of the operations. -/
structure Proof where
  generators : List G1Affine
  folded : List R1CS
  latest : R1CS
  pc : Nat
  i : Nat
deriving DecidableEq

/-- The digest sum `Σ_j folded[j].params` folded up from zero, as computed both by
`Proof::params` and inside `hash_public_io`. -/
def paramsFold (folded : List R1CS) : Fq :=
  folded.foldl (fun acc pair => acc + pair.params) 0

/-- lib.rs `Proof::new`: stores the slots and the base pair, sets `pc = 0` and —
as the source is written — sets the step counter `i` to `folded.len()`. -/
def Proof.new (folded : List R1CS) (latest : R1CS) (generators : List G1Affine) :
    Proof :=
  { generators := generators, folded := folded, latest := latest, pc := 0,
    i := folded.length }

/-- lib.rs `Proof::params`. -/
def Proof.paramsSum (p : Proof) : Fq := paramsFold p.folded

/-- lib.rs `hash_public_io`: absorbs the digest sum, `i`, `pc`, then `z0`, the
output, the witness-commitment unrolling, the crossterms (the `comm_E` unrolling
and `u`) and the hash of `folded[pc]`, and squeezes one element.  The source
indexes `folded[pc]` while building the list; `none` models the panic when `pc`
is out of bounds. -/
def hash_public_io (squeeze : List Fq → Fq) (folded : List R1CS) (i pc : Nat) :
    Option Fq :=
  match folded[pc]? with
  | none => none
  | some f =>
    some (squeeze (paramsFold folded :: (i : Fq) :: (pc : Fq) ::
      (f.z0 ++ f.output ++ f.comm_witness.xyb ++ f.crossterms ++ [f.hash])))

/-- lib.rs `Proof::update`: synthesize the augmented circuit on `folded[self.pc]`
(which stores the new output on that slot), fold the old `latest` into the slot
natively, rotate `latest`, set the program counter to the argument and advance
`i`.  The entropy triple carries the `OsRng` points drawn by `synthesize`
(`comm_E`, `comm_T`) and by `commit_t` inside `fold`; `none` models a panic
(out-of-bounds slot, or a `commit` length mismatch). -/
def Proof.update (squeeze : List Fq → Fq) (gadget : SynthInput → GadgetOut)
    (p : Proof) (pc : Nat) (entropy : G1Affine × G1Affine × G1Affine) :
    Option Proof :=
  match p.folded[p.pc]? with
  | none => none
  | some slot =>
    match slot.synthesize gadget p.paramsSum p.latest.comm_witness p.latest.hash
        p.pc pc p.i p.generators entropy.1 entropy.2.1 with
    | none => none
    | some sl =>
      let folded1 := p.folded.set p.pc sl.1
      match sl.1.fold squeeze p.latest p.generators (paramsFold folded1)
          entropy.2.2 with
      | none => none
      | some slot2 =>
        some { p with
          folded := folded1.set p.pc slot2
          latest := sl.2
          pc := pc
          i := p.i + 1 }

/-- lib.rs `Proof::verify`: the base-case branch at `i == 1`, then the hash
comparison against `hash_public_io`, the range check `pc > folded.len()`, the
crossterm check on `latest`, and the satisfaction checks.  `none` models the
panic of `hash_public_io` when `pc` indexes outside the slot array. -/
def Proof.verify (squeeze : List Fq → Fq) (p : Proof) :
    Option (Except VerificationError Unit) :=
  if p.i = 1 then
    if p.folded.any R1CS.has_crossterms then
      some (Except.error VerificationError.ExpectedBaseCase)
    else if p.latest.has_crossterms then
      some (Except.error VerificationError.ExpectedBaseCase)
    else some (Except.ok ())
  else
    match hash_public_io squeeze p.folded p.i p.pc with
    | none => none
    | some h =>
      if ¬ p.latest.hash = h then
        some (Except.error (VerificationError.HashMismatch h p.latest.hash))
      else if p.folded.length < p.pc then
        some (Except.error (VerificationError.PCOutOfRange p.pc p.folded.length))
      else if p.latest.has_crossterms then
        some (Except.error VerificationError.UnexpectedCrossterms)
      else if p.folded.any (fun pair => ¬ pair.is_satisfied p.generators) then
        some (Except.error VerificationError.UnsatisfiedCircuit)
      else if ¬ p.latest.is_satisfied p.generators then
        some (Except.error VerificationError.UnsatisfiedCircuit)
      else some (Except.ok ())

/-- The relaxed R1CS row relation of the specification, as checked by
`is_satisfied`: with `z` built from the constant slot, the instance and the
witness, every constraint row satisfies `(A·z)[i]·(B·z)[i] = u·(C·z)[i] + E[i]`. -/
def R1CS.satisfiesRelation (self : R1CS) : Prop :=
  ∀ idx < self.shape.num_constraints,
    self.evalAz.getD idx 0 * self.evalBz.getD idx 0
      = self.u * self.evalCz.getD idx 0 + self.E.getD idx 0

instance (self : R1CS) : Decidable self.satisfiesRelation := by
  unfold R1CS.satisfiesRelation
  infer_instance

/-- The commitment half of the satisfaction invariant in the specification:
`comm_W` and `comm_E` are honest Pedersen commitments to `W` and `E`. -/
def R1CS.commitmentsMatch (self : R1CS) (generators : List G1Affine) : Prop :=
  commit generators self.witness = some self.comm_witness ∧
  commit generators self.E = some self.comm_E

/-- Modelled from the spec: the Pedersen commitment written as the specification
words it, `Σ_{j<|v|} v[j]·gens[j]`, for comparison with `commit`. -/
def pedersenSum (generators : List G1Affine) (scalars : List Fq) : G1Affine :=
  ((List.range scalars.length).map fun j =>
    G1Affine.mulNat (scalars.getD j 0).val
      (generators.getD j G1Affine.identity)).foldl G1Affine.add G1Affine.identity

/-- Modelled from the spec: the absorption list claim C4 prescribes for the
folding randomness — identical to `foldTranscript` except that the absorbed
`comm_T` is the fresh cross-term commitment computed by `commit_t` for this very
fold (`none` when `commit_t` panics). -/
def specFoldTranscript (self other : R1CS) (generators : List G1Affine)
    (params : Fq) (entropy : G1Affine) : Option (List Fq) :=
  match self.commit_t other generators entropy with
  | none => none
  | some tc =>
    some (params :: (self.comm_witness.xyb ++ self.comm_E.xyb
      ++ [self.u, self.hash] ++ other.comm_witness.xyb ++ [other.hash]
      ++ tc.2.xyb))

/-- An empty constraint shape, as a priming slot would carry before synthesis. -/
def emptyShape : ConstraintMatrices :=
  { num_instance_variables := 0, num_witness_variables := 0, num_constraints := 0
    a_num_non_zero := 0, b_num_non_zero := 0, c_num_non_zero := 0
    a := [], b := [], c := [] }

/-- A one-constraint shape over `z = (u, W₀)`: the A and B rows read the single
witness column, the C row is empty. -/
def exShape : ConstraintMatrices :=
  { num_instance_variables := 1, num_witness_variables := 1, num_constraints := 1
    a_num_non_zero := 1, b_num_non_zero := 1, c_num_non_zero := 0
    a := [[(1, 1)]], b := [[(1, 1)]], c := [[]] }

/-- A trivial pair over the empty shape. -/
def exEmpty : R1CS :=
  { shape := emptyShape, param := 0, comm_witness := G1Affine.identity
    comm_E := G1Affine.identity, comm_T := G1Affine.identity
    E := [], witness := [], instanceVec := [], u := 1, hash := 0, output := [] }

/-- A satisfied, honestly committed pair over `exShape` with zero witness. -/
def exSelf : R1CS :=
  { shape := exShape, param := 0, comm_witness := G1Affine.identity
    comm_E := G1Affine.identity, comm_T := G1Affine.identity
    E := [0], witness := [0], instanceVec := [], u := 1, hash := 0, output := [] }

/-- A satisfied, honestly committed pair over `exShape` with unit witness and a
non-zero error entry. -/
def exOther : R1CS := { exSelf with witness := [1], E := [1] }

/-- A single-generator vector consisting of the identity point, under which every
Pedersen commitment is the identity. -/
def exGens : List G1Affine := [G1Affine.identity]

/-- A sponge stand-in squeezing the constant one. -/
def squeezeOne : List Fq → Fq := fun _ => 1

/-- A sponge stand-in squeezing the constant zero. -/
def squeezeZero : List Fq → Fq := fun _ => 0

/-- A sponge stand-in squeezing the sum of the absorbed elements, which separates
absorption lists differing in one entry. -/
def squeezeSum : List Fq → Fq := fun l => l.foldl (fun acc v => acc + v) 0

/-- A gadget stand-in producing the empty constraint system. -/
def exGadgetEmpty : SynthInput → GadgetOut := fun _ =>
  { shape := emptyShape, witnessAssignment := [], instanceAssignment := []
    output := [], hash := 0 }

/-- The identity entropy triple. -/
def exEntropy : G1Affine × G1Affine × G1Affine :=
  (G1Affine.identity, G1Affine.identity, G1Affine.identity)

/-- A base proof state over one trivial slot, as `Proof::new` yields it. -/
def exProofBase : Proof := Proof.new [exEmpty] exEmpty []

instance (self : R1CS) (generators : List G1Affine) :
    Decidable (self.commitmentsMatch generators) := by
  unfold R1CS.commitmentsMatch
  infer_instance

/-- The pair `fold` produces from `exSelf` and `exOther` with challenge one. -/
def exFoldedC1 : R1CS := { exSelf with witness := [1], u := 2 }

/-- The pair `fold` produces from folding `exSelf` into itself with challenge
one. -/
def exFoldedSelf : R1CS := { exSelf with u := 2 }

/-- `exSelf` with a distinctive stored `comm_T` (a two-torsion-shaped point whose
scalar multiples never need a field inversion), separating the stored cross-term
commitment from the fresh one in the fold transcript. -/
def exC4self : R1CS :=
  { exSelf with comm_T := { x := 1, y := 0, infinity := false } }

/-- The entropy point standing in for the random replacement of an infinite
cross-term commitment. -/
def exC4pt : G1Affine := { x := 5, y := 6, infinity := false }

/-- The pair `fold` produces from `exC4self` and `exOther` under the summing
sponge: the challenge is the transcript sum `5`. -/
def exC4folded : R1CS :=
  { exC4self with
    witness := [5]
    u := 6
    comm_E := { x := 1, y := 0, infinity := false }
    comm_T := exC4pt }

/-- A non-identity point used as alternative entropy. -/
def exPtB : G1Affine := { x := 1, y := 2, infinity := false }

/-- An entropy triple whose `comm_E` slot differs from `exEntropy`. -/
def exEntropyB : G1Affine × G1Affine × G1Affine :=
  (exPtB, G1Affine.identity, G1Affine.identity)

/-- The state after one `update(0)` from `exProofBase` with zero challenges and
identity entropy. -/
def exP1 : Proof :=
  { generators := [], folded := [exEmpty], latest := exEmpty, pc := 0, i := 2 }

/-- The state after a further `update(1)` from `exP1`: the program counter now
points past the single slot. -/
def exP2 : Proof :=
  { generators := [], folded := [exEmpty], latest := exEmpty, pc := 1, i := 3 }

/-- The state `update` reaches from `exProofBase` when the `comm_E` entropy point
is `exPtB` instead of the identity. -/
def exP1B : Proof :=
  { generators := [], folded := [exEmpty]
    latest := { exEmpty with comm_E := exPtB }, pc := 0, i := 2 }

/-- A circuit.rs-iteration pair with a zero error vector and `u = 2`. -/
def exCR : CR1CS Unit :=
  { shape := emptyShape, comm_witness := G1Affine.identity
    comm_E := G1Affine.identity, comm_T := G1Affine.identity
    E := [0], witness := [], instanceVec := [], u := 2, hash := 0, output := []
    circuit := () }

/-- A just-initialized one-slot state whose slot has been tampered to `u = 2`. -/
def exC6state : Proof :=
  { generators := [], folded := [{ exEmpty with u := 2 }], latest := exEmpty
    pc := 0, i := 1 }

/-- Destructuring of a successful `synthesize`: the fresh pair always carries
`u = 1` and a zero error vector as long as its own constraint count. -/
theorem R1CS.synthesize_strict {gadget : SynthInput → GadgetOut} {self : R1CS}
    {params : Fq} {lw : G1Affine} {lh : Fq} {opc npc i : Nat}
    {gens : List G1Affine} {e1 e2 : G1Affine} {sl : R1CS × R1CS}
    (h : R1CS.synthesize gadget self params lw lh opc npc i gens e1 e2 = some sl) :
    sl.2.u = 1 ∧ sl.2.E = List.replicate sl.2.shape.num_constraints 0 := by
  rcases hc : commit gens
      (gadget ⟨self, params, lw, lh, opc, npc, i⟩).witnessAssignment with _ | cw
  · simp only [R1CS.synthesize, hc] at h
    exact Option.noConfusion h
  · simp only [R1CS.synthesize, hc, Option.some.injEq] at h
    subst h
    exact ⟨rfl, rfl⟩

/-- Destructuring of a successful `update`: the next state keeps the slot count,
takes the argument as program counter, advances `i`, and its `latest` is the
fresh pair some successful `synthesize` returned. -/
theorem Proof.update_fields {squeeze : List Fq → Fq}
    {gadget : SynthInput → GadgetOut} {p : Proof} {pc : Nat}
    {entropy : G1Affine × G1Affine × G1Affine} {p' : Proof}
    (h : Proof.update squeeze gadget p pc entropy = some p') :
    p'.pc = pc ∧ p'.i = p.i + 1 ∧ p'.folded.length = p.folded.length ∧
    ∃ slot sl, p.folded[p.pc]? = some slot ∧
      R1CS.synthesize gadget slot p.paramsSum p.latest.comm_witness p.latest.hash
        p.pc pc p.i p.generators entropy.1 entropy.2.1 = some sl ∧
      p'.latest = sl.2 := by
  rcases hs : p.folded[p.pc]? with _ | slot
  · simp only [Proof.update, hs] at h
    exact Option.noConfusion h
  rcases hsyn : R1CS.synthesize gadget slot p.paramsSum p.latest.comm_witness
      p.latest.hash p.pc pc p.i p.generators entropy.1 entropy.2.1 with _ | sl
  · simp only [Proof.update, hs, hsyn] at h
    exact Option.noConfusion h
  rcases hf : R1CS.fold squeeze sl.1 p.latest p.generators
      (paramsFold (p.folded.set p.pc sl.1)) entropy.2.2 with _ | slot2
  · simp only [Proof.update, hs, hsyn, hf] at h
    exact Option.noConfusion h
  simp only [Proof.update, hs, hsyn, hf, Option.some.injEq] at h
  subst h
  refine ⟨rfl, rfl, by simp, slot, sl, rfl, hsyn, rfl⟩

/-- Claim C3: the claim says `Proof::new` always yields `i = 1`; the source sets
`i = folded.len()`, which equals `1` only for a single slot.  With two slots the
counter starts at `2`, so the base-case branch of `verify` is skipped. -/
theorem new_counter_equals_slot_count :
    (∀ (folded : List R1CS) (latest : R1CS) (generators : List G1Affine),
      (Proof.new folded latest generators).i = folded.length) ∧
    (Proof.new [exEmpty, exEmpty] exEmpty []).i = 2 ∧
    ¬ (Proof.new [exEmpty, exEmpty] exEmpty []).i = 1 := by
  exact ⟨fun _ _ _ => rfl, rfl, by decide⟩

/-- Claim C5: after every successful `update`, the fresh `latest` produced by
`synthesize` carries relaxation scalar `u = 1` and an all-zero error vector whose
length is the constraint count of the fresh circuit. -/
theorem update_latest_strict (squeeze : List Fq → Fq)
    (gadget : SynthInput → GadgetOut) (p : Proof) (pc : Nat)
    (entropy : G1Affine × G1Affine × G1Affine) (p' : Proof)
    (h : Proof.update squeeze gadget p pc entropy = some p') :
    p'.latest.u = 1 ∧
    p'.latest.E = List.replicate p'.latest.shape.num_constraints 0 := by
  obtain ⟨-, -, -, slot, sl, -, hsyn, hlatest⟩ := Proof.update_fields h
  rw [hlatest]
  exact R1CS.synthesize_strict hsyn

/-- Witness for C5: a concrete successful update whose resulting `latest` is
strict. -/
theorem update_latest_strict_witness :
    exP1.latest.u = 1 ∧
    exP1.latest.E = List.replicate exP1.latest.shape.num_constraints 0 :=
  update_latest_strict squeezeZero exGadgetEmpty exProofBase 0 exEntropy exP1
    (by decide)

/-- Claim C7: the claim says no entropy enters `update`; in the source,
`synthesize` draws `comm_E` and `comm_T` from `OsRng`, so two runs of `update`
from the same state with the same program counter can differ — here they differ
in the `comm_E` commitment of the new `latest`. -/
theorem update_depends_on_entropy :
    Proof.update squeezeZero exGadgetEmpty exProofBase 0 exEntropy = some exP1 ∧
    Proof.update squeezeZero exGadgetEmpty exProofBase 0 exEntropyB = some exP1B ∧
    ¬ exP1 = exP1B ∧ ¬ exP1.latest.comm_E = exP1B.latest.comm_E := by
  refine ⟨by decide, by decide, by decide, by decide⟩

/-- Counterexample for C6: the `has_crossterms` of the circuit.rs iteration (lines
144-146) computes a conjunction, so a pair with a zero error vector and `u = 2`
reports no crossterms even though `u ≠ 1`, violating the claimed equivalence. -/
theorem has_crossterms_conj_counterexample :
    CR1CS.has_crossterms exCR = false ∧
    ((∃ e ∈ exCR.E, ¬ e = 0) ∨ ¬ exCR.u = 1) := by
  exact ⟨rfl, by decide⟩

/-- Claim C6 (amended): the equivalence `has_crossterms ≡ (E has a non-zero entry)
∨ (u ≠ 1)` holds for the r1cs.rs iteration the proof driver folds with — and with
it the tampering scenario: a slot of a just-initialized (`i = 1`) state set to
`u = 2` makes `verify` return `ExpectedBaseCase` — while the circuit.rs duplicate
computes the conjunction instead. -/
theorem has_crossterms_characterization :
    (∀ pair : R1CS,
      pair.has_crossterms = true ↔ ((∃ e ∈ pair.E, ¬ e = 0) ∨ ¬ pair.u = 1)) ∧
    (∀ (squeeze : List Fq → Fq) (s : Proof), s.i = 1 →
      (∃ slot ∈ s.folded, ¬ slot.u = 1) →
      Proof.verify squeeze s =
        some (Except.error VerificationError.ExpectedBaseCase)) := by
  constructor
  · intro pair
    simp [R1CS.has_crossterms, List.any_eq_true]
  · intro squeeze s hi ⟨slot, hmem, hu⟩
    have hcross : s.folded.any R1CS.has_crossterms = true := by
      rw [List.any_eq_true]
      refine ⟨slot, hmem, ?_⟩
      simp [R1CS.has_crossterms, hu]
    simp [Proof.verify, hi, hcross]

/-- Witness for C6: the characterization applied to a concrete pair and to a
concrete tampered base state. -/
theorem has_crossterms_characterization_witness :
    (R1CS.has_crossterms exOther = true ↔
      ((∃ e ∈ exOther.E, ¬ e = 0) ∨ ¬ exOther.u = 1)) ∧
    Proof.verify squeezeZero exC6state =
      some (Except.error VerificationError.ExpectedBaseCase) :=
  ⟨has_crossterms_characterization.1 exOther,
    has_crossterms_characterization.2 squeezeZero exC6state (by decide)
      ⟨{ exEmpty with u := 2 }, by decide, by decide⟩⟩

/-- Counterexample for C9: with more generators than scalars — the case the claim
says returns the Pedersen sum — the source's `zip_eq` panics instead of
returning, and no `GeneratorsTooSmall` variant exists in errors.rs at all. -/
theorem commit_length_counterexample :
    commit [G1Affine.identity, G1Affine.identity] [1] = none ∧
    ([1] : List Fq).length ≤ [G1Affine.identity, G1Affine.identity].length := by
  exact ⟨rfl, by decide⟩

/-- Claim C9 (amended): `commit` requires the generator and scalar slices to have
equal length (rayon `zip_eq`); then it returns `Σ_{j<|v|} v[j]·gens[j]`, and on
any length mismatch — in either direction — it panics; the source has no
`GeneratorsTooSmall` error. -/
theorem commit_zip_eq_characterization (generators : List G1Affine)
    (scalars : List Fq) :
    (generators.length = scalars.length →
      commit generators scalars = some (pedersenSum generators scalars)) ∧
    (¬ generators.length = scalars.length → commit generators scalars = none) := by
  constructor
  · intro h
    unfold commit pedersenSum
    rw [if_pos h]
    have hlists : (generators.zip scalars).map
          (fun gs => G1Affine.mulNat gs.2.val gs.1)
        = (List.range scalars.length).map (fun j =>
            G1Affine.mulNat (scalars.getD j 0).val
              (generators.getD j G1Affine.identity)) := by
      apply List.ext_getElem
      · simp [h]
      · intro j h1 h2
        simp only [List.getElem_map, List.getElem_zip, List.getElem_range]
        have hj : j < scalars.length := by
          simpa using h2
        rw [List.getD_eq_getElem scalars 0 hj,
          List.getD_eq_getElem generators G1Affine.identity (h ▸ hj)]
    rw [hlists]
  · intro h
    unfold commit
    rw [if_neg h]

/-- Witness for C9: the characterization evaluated on the equal-length and the
mismatched case. -/
theorem commit_zip_eq_characterization_witness :
    commit [G1Affine.identity] [0] = some (pedersenSum [G1Affine.identity] [0]) ∧
    commit [] [0] = none :=
  ⟨(commit_zip_eq_characterization [G1Affine.identity] [0]).1 (by decide),
    (commit_zip_eq_characterization [] [0]).2 (by decide)⟩

/-- Claim C10: `fold` only rewrites the witness, instance, error, relaxation,
commitment and hash fields of the receiver; the shape, the stored `param` digest
and the output vector survive unchanged (and the other operand, taken by shared
reference in the source, is read-only by construction here). -/
theorem fold_frame (squeeze : List Fq → Fq) (self other : R1CS)
    (generators : List G1Affine) (params : Fq) (entropy : G1Affine)
    (folded : R1CS)
    (h : R1CS.fold squeeze self other generators params entropy = some folded) :
    folded.shape = self.shape ∧ folded.param = self.param ∧
    folded.output = self.output := by
  rcases hc : R1CS.commit_t self other generators entropy with _ | tc
  · simp only [R1CS.fold, hc] at h
    exact Option.noConfusion h
  · simp only [R1CS.fold, hc, Option.some.injEq] at h
    subst h
    exact ⟨rfl, rfl, rfl⟩

/-- Witness for C10: the frame property at a concrete successful fold. -/
theorem fold_frame_witness :
    exFoldedC1.shape = exSelf.shape ∧ exFoldedC1.param = exSelf.param ∧
    exFoldedC1.output = exSelf.output :=
  fold_frame squeezeOne exSelf exOther exGens 0 G1Affine.identity exFoldedC1
    (by decide)

/-- A successful `commit_t` returns exactly the cross-term vector as its first
component. -/
theorem R1CS.commit_t_fst {self other : R1CS} {gens : List G1Affine}
    {entropy : G1Affine} {tc : List Fq × G1Affine}
    (h : R1CS.commit_t self other gens entropy = some tc) :
    tc.1 = self.crossTermVec other := by
  rcases hc : commit gens (self.crossTermVec other) with _ | cT
  · simp only [R1CS.commit_t, hc] at h
    exact Option.noConfusion h
  · simp only [R1CS.commit_t, hc, Option.some.injEq] at h
    subst h
    rfl

/-- Entrywise description of the nested `zip` chain of `commit_t` over six
generic lists. -/
theorem nestedZipMap_getD (w : Fq) (l1 l2 l3 l4 l5 l6 : List Fq) (idx : Nat)
    (h : idx < (((((((l1.zip l2).zip l3).zip l4).zip l5).zip l6).map
      (fun v => v.1.1.1.1.1 * v.1.1.1.1.2 + v.1.1.1.2 * v.1.1.2
        - w * v.2 - v.1.2)).length)) :
    (((((((l1.zip l2).zip l3).zip l4).zip l5).zip l6).map
      (fun v => v.1.1.1.1.1 * v.1.1.1.1.2 + v.1.1.1.2 * v.1.1.2
        - w * v.2 - v.1.2)).getD idx 0) =
      l1.getD idx 0 * l2.getD idx 0 + l3.getD idx 0 * l4.getD idx 0
        - w * l6.getD idx 0 - l5.getD idx 0 := by
  induction l1 generalizing l2 l3 l4 l5 l6 idx with
  | nil => simp at h
  | cons a1 t1 ih =>
    cases l2 with
    | nil => simp at h
    | cons a2 t2 =>
      cases l3 with
      | nil => simp at h
      | cons a3 t3 =>
        cases l4 with
        | nil => simp at h
        | cons a4 t4 =>
          cases l5 with
          | nil => simp at h
          | cons a5 t5 =>
            cases l6 with
            | nil => simp at h
            | cons a6 t6 =>
              cases idx with
              | zero => simp
              | succ n =>
                simp only [List.zip_cons_cons, List.map_cons,
                  List.getD_cons_succ]
                refine ih t2 t3 t4 t5 t6 n ?_
                simp only [List.zip_cons_cons, List.map_cons,
                  List.length_cons] at h
                omega

/-- Entrywise description of the cross-term vector: within range it carries
`az1*bz2 + az2*bz1 − u·cz2 − cz1`. -/
theorem R1CS.crossTermVec_getD (self other : R1CS) (idx : Nat)
    (h : idx < (self.crossTermVec other).length) :
    (self.crossTermVec other).getD idx 0 =
      self.evalAz.getD idx 0 * other.evalBz.getD idx 0
        + other.evalAz.getD idx 0 * self.evalBz.getD idx 0
        - self.u * other.evalCz.getD idx 0 - self.evalCz.getD idx 0 :=
  nestedZipMap_getD self.u self.evalAz other.evalBz other.evalAz self.evalBz
    self.evalCz other.evalCz idx h

/-- Counterexample for C4: the transcript the native `fold` absorbs ends with the
*stored* `self.comm_T` (here `(1, 0, false)`), not the fresh cross-term
commitment of this fold (here the entropy replacement `(5, 6, false)`); with the
summing sponge the resulting `u` therefore differs from what the claim's
transcript would give. -/
theorem fold_transcript_counterexample :
    R1CS.foldTranscript exC4self exOther 0
      = [0, 0, 0, 1, 0, 0, 1, 1, 0, 0, 0, 1, 0, 1, 0, 0] ∧
    specFoldTranscript exC4self exOther exGens 0 exC4pt
      = some [0, 0, 0, 1, 0, 0, 1, 1, 0, 0, 0, 1, 0, 5, 6, 0] ∧
    ¬ R1CS.foldTranscript exC4self exOther 0
      = [0, 0, 0, 1, 0, 0, 1, 1, 0, 0, 0, 1, 0, 5, 6, 0] ∧
    R1CS.fold squeezeSum exC4self exOther exGens 0 exC4pt = some exC4folded ∧
    ¬ exC4folded.u = exC4self.u
        + squeezeSum [0, 0, 0, 1, 0, 0, 1, 1, 0, 0, 0, 1, 0, 5, 6, 0] := by
  refine ⟨by decide, by decide, by decide, by decide, by decide⟩

/-- Claim C4 (amended): the folding randomness is squeezed from the sponge that
absorbed, in order, `params`, `comm_W_self.xyb`, `comm_E_self.xyb`, `u_self`,
`hash_self`, `comm_W_other.xyb`, `hash_other` and the unrolling of the *stored*
`comm_T` of `self` from before this fold; the fresh commitment to the cross-term
vector `T`, with `T[i] = az1*bz2 + az2*bz1 − u_self·cz2 − cz1`, is computed after
`r` and weights the error update. -/
theorem fold_randomness_transcript (squeeze : List Fq → Fq) (self other : R1CS)
    (generators : List G1Affine) (params : Fq) (entropy : G1Affine)
    (folded : R1CS)
    (h : R1CS.fold squeeze self other generators params entropy = some folded) :
    folded.u = self.u + squeeze (params :: (self.comm_witness.xyb
      ++ self.comm_E.xyb ++ [self.u, self.hash] ++ other.comm_witness.xyb
      ++ [other.hash] ++ self.comm_T.xyb)) ∧
    folded.E = List.zipWith
      (fun a b => a + squeeze (params :: (self.comm_witness.xyb
        ++ self.comm_E.xyb ++ [self.u, self.hash] ++ other.comm_witness.xyb
        ++ [other.hash] ++ self.comm_T.xyb)) * b)
      self.E (self.crossTermVec other) ∧
    (∀ idx, idx < (self.crossTermVec other).length →
      (self.crossTermVec other).getD idx 0 =
        self.evalAz.getD idx 0 * other.evalBz.getD idx 0
          + other.evalAz.getD idx 0 * self.evalBz.getD idx 0
          - self.u * other.evalCz.getD idx 0 - self.evalCz.getD idx 0) := by
  rcases hc : R1CS.commit_t self other generators entropy with _ | tc
  · simp only [R1CS.fold, hc] at h
    exact Option.noConfusion h
  · have ht : tc.1 = self.crossTermVec other := R1CS.commit_t_fst hc
    simp only [R1CS.fold, hc, Option.some.injEq] at h
    subst h
    refine ⟨?_, ?_, fun idx hidx => R1CS.crossTermVec_getD self other idx hidx⟩
    · show self.u + squeeze (self.foldTranscript other params) = _
      simp only [R1CS.foldTranscript]
    · show List.zipWith
        (fun a b => a + squeeze (self.foldTranscript other params) * b)
        self.E tc.1 = _
      simp only [ht, R1CS.foldTranscript]

/-- Witness for C4 (amended): the randomness equation evaluated at the concrete
fold of the counterexample inputs. -/
theorem fold_randomness_transcript_witness :
    exC4folded.u = exC4self.u + squeezeSum (0 :: (exC4self.comm_witness.xyb
      ++ exC4self.comm_E.xyb ++ [exC4self.u, exC4self.hash]
      ++ exOther.comm_witness.xyb ++ [exOther.hash] ++ exC4self.comm_T.xyb)) :=
  (fold_randomness_transcript squeezeSum exC4self exOther exGens 0 exC4pt
    exC4folded (by decide)).1

/-- The shape `verify` takes past the base case once the public-IO hash has been
recomputed successfully. -/
theorem Proof.verify_nonbase (squeeze : List Fq → Fq) (s : Proof) (h : Fq)
    (hi1 : ¬ s.i = 1)
    (hh : hash_public_io squeeze s.folded s.i s.pc = some h) :
    Proof.verify squeeze s =
      if ¬ s.latest.hash = h then
        some (Except.error (VerificationError.HashMismatch h s.latest.hash))
      else if s.folded.length < s.pc then
        some (Except.error (VerificationError.PCOutOfRange s.pc s.folded.length))
      else if s.latest.has_crossterms then
        some (Except.error VerificationError.UnexpectedCrossterms)
      else if s.folded.any (fun pair => ¬ pair.is_satisfied s.generators) then
        some (Except.error VerificationError.UnsatisfiedCircuit)
      else if ¬ s.latest.is_satisfied s.generators then
        some (Except.error VerificationError.UnsatisfiedCircuit)
      else some (Except.ok ()) := by
  unfold Proof.verify
  rw [if_neg hi1, hh]

/-- Claim C8: with one slot, after a valid `update(0)` the out-of-range
`update(1)` is accepted and mutates the state; the next `verify` then does not
return `PCOutOfRange` — it panics (modelled `none`) indexing `folded[1]` inside
`hash_public_io`, before the range check `pc > folded.len()` (which `pc = 1 = L`
would pass anyway) is ever reached. -/
theorem verify_out_of_range_panics (squeeze squeezeH : List Fq → Fq)
    (gadget : SynthInput → GadgetOut) (p0 p1 p2 : Proof)
    (e1 e2 : G1Affine × G1Affine × G1Affine)
    (hL : p0.folded.length = 1) (hi : p0.i = 1)
    (h1 : Proof.update squeeze gadget p0 0 e1 = some p1)
    (h2 : Proof.update squeeze gadget p1 1 e2 = some p2) :
    Proof.verify squeezeH p2 = none ∧
    ∀ err : VerificationError,
      ¬ Proof.verify squeezeH p2 = some (Except.error err) := by
  obtain ⟨hpc1, hi1, hlen1, -⟩ := Proof.update_fields h1
  obtain ⟨hpc2, hi2, hlen2, -⟩ := Proof.update_fields h2
  have hnone : hash_public_io squeezeH p2.folded p2.i p2.pc = none := by
    unfold hash_public_io
    rw [hpc2, List.getElem?_eq_none (by omega)]
  have hv : Proof.verify squeezeH p2 = none := by
    unfold Proof.verify
    rw [if_neg (by omega), hnone]
  exact ⟨hv, fun err hE => Option.noConfusion (hv ▸ hE)⟩

/-- Witness for C8: the concrete two-update chain over one slot, whose `verify`
panics instead of reporting `PCOutOfRange`. -/
theorem verify_out_of_range_panics_witness :
    Proof.verify squeezeZero exP2 = none :=
  (verify_out_of_range_panics squeezeZero squeezeZero exGadgetEmpty exProofBase
    exP1 exP2 exEntropy exEntropy (by decide) (by decide) (by decide)
    (by decide)).1

/-- Claim C2: past the base case and with the program counter in range, `verify`
returns `HashMismatch(expected, found)` exactly when the latest hash differs from
the recomputed public-IO hash of `folded[pc]`; the payload is always the
recomputed hash first and the stored hash second; and replacing the latest hash
by any other value — for instance by flipping one bit — forces the mismatch. -/
theorem verify_hash_mismatch_iff (squeeze : List Fq → Fq) (s : Proof)
    (hi : 1 < s.i) (_hpc : s.pc < s.folded.length) (h : Fq)
    (hh : hash_public_io squeeze s.folded s.i s.pc = some h) :
    (Proof.verify squeeze s =
        some (Except.error (VerificationError.HashMismatch h s.latest.hash)) ↔
      ¬ s.latest.hash = h) ∧
    (∀ e f, Proof.verify squeeze s =
        some (Except.error (VerificationError.HashMismatch e f)) →
      e = h ∧ f = s.latest.hash ∧ ¬ s.latest.hash = h) ∧
    (∀ h' : Fq, ¬ h' = h →
      Proof.verify squeeze { s with latest := { s.latest with hash := h' } } =
        some (Except.error (VerificationError.HashMismatch h h'))) := by
  have hi1 : ¬ s.i = 1 := by omega
  have key : ∀ e f, Proof.verify squeeze s =
      some (Except.error (VerificationError.HashMismatch e f)) →
      e = h ∧ f = s.latest.hash ∧ ¬ s.latest.hash = h := by
    intro e f hv
    rw [Proof.verify_nonbase squeeze s h hi1 hh] at hv
    by_cases he : s.latest.hash = h
    · rw [if_neg (by simp [he])] at hv
      split_ifs at hv <;> simp_all
    · rw [if_pos he] at hv
      simp only [Option.some.injEq, Except.error.injEq,
        VerificationError.HashMismatch.injEq] at hv
      exact ⟨hv.1.symm, hv.2.symm, he⟩
  refine ⟨⟨fun hv => (key h s.latest.hash hv).2.2, fun he => ?_⟩, key,
    fun h' hne => ?_⟩
  · rw [Proof.verify_nonbase squeeze s h hi1 hh, if_pos he]
  · have hh' : hash_public_io squeeze
        ({ s with latest := { s.latest with hash := h' } } : Proof).folded
        ({ s with latest := { s.latest with hash := h' } } : Proof).i
        ({ s with latest := { s.latest with hash := h' } } : Proof).pc
        = some h := hh
    rw [Proof.verify_nonbase squeeze
      { s with latest := { s.latest with hash := h' } } h hi1 hh', if_pos hne]

/-- Witness for C2: the claim's equivalence instantiated at a concrete in-range
state past the base case. -/
theorem verify_hash_mismatch_iff_witness :
    (Proof.verify squeezeZero exP1 =
        some (Except.error (VerificationError.HashMismatch 0 exP1.latest.hash)) ↔
      ¬ exP1.latest.hash = 0) ∧
    (∀ e f, Proof.verify squeezeZero exP1 =
        some (Except.error (VerificationError.HashMismatch e f)) →
      e = 0 ∧ f = exP1.latest.hash ∧ ¬ exP1.latest.hash = 0) ∧
    (∀ h' : Fq, ¬ h' = 0 →
      Proof.verify squeezeZero
          { exP1 with latest := { exP1.latest with hash := h' } } =
        some (Except.error (VerificationError.HashMismatch 0 h'))) :=
  verify_hash_mismatch_iff squeezeZero exP1 (by decide) (by decide) 0 (by decide)

/-- Entry of a `zipWith` under the folding challenge: `(z1 + z2·r)[i] = z1[i] +
z2[i]·r` for equal-length vectors, with zero defaults out of range. -/
theorem getD_zipWith_foldChallenge (r : Fq) (z1 z2 : List Fq)
    (hlen : z1.length = z2.length) (i : Nat) :
    (List.zipWith (fun a b => a + b * r) z1 z2).getD i 0
      = z1.getD i 0 + z2.getD i 0 * r := by
  induction z1 generalizing z2 i with
  | nil =>
    cases z2 with
    | nil => simp
    | cons b bs => simp at hlen
  | cons a as ih =>
    cases z2 with
    | nil => simp at hlen
    | cons b bs =>
      cases i with
      | zero => simp
      | succ n =>
        simp only [List.zipWith_cons_cons, List.getD_cons_succ]
        exact ih bs (by simpa using hlen) n

/-- Entry of the error update `E + r·t`. -/
theorem getD_zipWith_errChallenge (r : Fq) (z1 z2 : List Fq)
    (hlen : z1.length = z2.length) (i : Nat) :
    (List.zipWith (fun a b => a + r * b) z1 z2).getD i 0
      = z1.getD i 0 + r * z2.getD i 0 := by
  induction z1 generalizing z2 i with
  | nil =>
    cases z2 with
    | nil => simp
    | cons b bs => simp at hlen
  | cons a as ih =>
    cases z2 with
    | nil => simp at hlen
    | cons b bs =>
      cases i with
      | zero => simp
      | succ n =>
        simp only [List.zipWith_cons_cons, List.getD_cons_succ]
        exact ih bs (by simpa using hlen) n

/-- The sparse-row fold peels its accumulator. -/
theorem sparseRowDot_foldl_acc (row : List (Fq × Nat)) (z : List Fq) (acc : Fq) :
    row.foldl (fun acc cv => acc + cv.1 * z.getD cv.2 0) acc
      = acc + sparseRowDot row z := by
  induction row generalizing acc with
  | nil => simp [sparseRowDot]
  | cons cv row ih =>
    simp only [sparseRowDot, List.foldl_cons] at *
    rw [ih, ih (0 + cv.1 * z.getD cv.2 0)]
    ring

/-- Linearity of the sparse row product over the folding update of `z`. -/
theorem sparseRowDot_fold (r : Fq) (row : List (Fq × Nat)) (z1 z2 : List Fq)
    (hlen : z1.length = z2.length) :
    sparseRowDot row (List.zipWith (fun a b => a + b * r) z1 z2)
      = sparseRowDot row z1 + sparseRowDot row z2 * r := by
  induction row with
  | nil => simp [sparseRowDot]
  | cons cv row ih =>
    simp only [sparseRowDot, List.foldl_cons]
    rw [sparseRowDot_foldl_acc, sparseRowDot_foldl_acc, sparseRowDot_foldl_acc,
      getD_zipWith_foldChallenge r z1 z2 hlen, ih]
    ring

/-- The folded `z`-vector is the challenge combination of the two operand
`z`-vectors once the second operand is strict (`u = 1`). -/
theorem zVec_fold (r u1 : Fq) (x1 w1 x2 w2 : List Fq)
    (hx : x1.length = x2.length) :
    ((u1 + r) :: (List.zipWith (fun a b => a + b * r) x1 x2
        ++ List.zipWith (fun a b => a + b * r) w1 w2))
      = List.zipWith (fun a b => a + b * r) (u1 :: (x1 ++ w1))
          (1 :: (x2 ++ w2)) := by
  simp only [List.zipWith_cons_cons]
  rw [List.zipWith_append _ _ _ _ _ hx]
  simp

/-- Entry of the row-product list of a shape. -/
theorem mapRowDot_getD (rows : List (List (Fq × Nat))) (z : List Fq) (idx : Nat)
    (h : idx < rows.length) :
    (rows.map (sparseRowDot · z)).getD idx 0
      = sparseRowDot (rows.getD idx []) z := by
  rw [List.getD_eq_getElem _ _ (by simpa using h), List.getElem_map,
    List.getD_eq_getElem _ _ h]

/-- An all-zero list reads zero everywhere. -/
theorem getD_eq_zero_of_forall_zero {l : List Fq} (h : ∀ e ∈ l, e = 0)
    (i : Nat) : l.getD i 0 = 0 := by
  induction l generalizing i with
  | nil => simp
  | cons a as ih =>
    cases i with
    | zero => simpa using h a (by simp)
    | succ n =>
      simp only [List.getD_cons_succ]
      exact ih (fun e he => h e (List.mem_cons_of_mem a he)) n

/-- Counterexample for C1: both operands satisfy the relaxed row relation with
honest commitments, yet because the second operand has a non-zero error entry the
folded receiver violates the relation — the `r²·E_other` term the source's error
update drops is missing. -/
theorem fold_relation_counterexample :
    exSelf.satisfiesRelation ∧ exSelf.commitmentsMatch exGens ∧
    exOther.satisfiesRelation ∧ exOther.commitmentsMatch exGens ∧
    R1CS.fold squeezeOne exSelf exOther exGens 0 G1Affine.identity
      = some exFoldedC1 ∧
    ¬ exFoldedC1.satisfiesRelation := by
  refine ⟨by decide, by decide, by decide, by decide, by decide, by decide⟩

/-- Claim C1 (amended): folding preserves the relaxed row relation whenever the
second operand is strict — `u = 1` and an all-zero error vector, exactly what
`synthesize` always returns as `latest` — over agreeing well-formed shapes; and
with it every folded slot stays satisfied along the update loop. -/
theorem fold_preserves_relation (squeeze : List Fq → Fq) (self other : R1CS)
    (generators : List G1Affine) (params : Fq) (entropy : G1Affine)
    (folded : R1CS)
    (hshape : other.shape = self.shape)
    (hwlen : other.witness.length = self.witness.length)
    (hxlen : other.instanceVec.length = self.instanceVec.length)
    (hAlen : self.shape.a.length = self.shape.num_constraints)
    (hBlen : self.shape.b.length = self.shape.num_constraints)
    (hClen : self.shape.c.length = self.shape.num_constraints)
    (hElen : self.E.length = self.shape.num_constraints)
    (hself : self.satisfiesRelation)
    (hother : other.satisfiesRelation)
    (hu : other.u = 1)
    (hE : ∀ e ∈ other.E, e = 0)
    (hfold : R1CS.fold squeeze self other generators params entropy
      = some folded) :
    folded.satisfiesRelation := by
  rcases hc : R1CS.commit_t self other generators entropy with _ | tc
  · simp only [R1CS.fold, hc] at hfold
    exact Option.noConfusion hfold
  have ht : tc.1 = self.crossTermVec other := R1CS.commit_t_fst hc
  simp only [R1CS.fold, hc, Option.some.injEq] at hfold
  set r := squeeze (self.foldTranscript other params) with hrdef
  have hsh : folded.shape = self.shape := by rw [← hfold]
  have hu' : folded.u = self.u + r := by rw [← hfold]
  have hE' : folded.E = List.zipWith (fun a b => a + r * b) self.E tc.1 := by
    rw [← hfold]
  have hw' : folded.witness
      = List.zipWith (fun a b => a + b * r) self.witness other.witness := by
    rw [← hfold]
  have hx' : folded.instanceVec
      = List.zipWith (fun a b => a + b * r) self.instanceVec
          other.instanceVec := by
    rw [← hfold]
  have hzlen : self.zVec.length = other.zVec.length := by
    simp only [R1CS.zVec, List.length_cons, List.length_append]
    omega
  have hz : folded.zVec = List.zipWith (fun a b => a + b * r) self.zVec
      other.zVec := by
    simp only [R1CS.zVec]
    rw [hu', hx', hw', hu]
    exact zVec_fold r self.u self.instanceVec self.witness other.instanceVec
      other.witness hxlen.symm
  have hrows : ∀ rows : List (List (Fq × Nat)), ∀ i < rows.length,
      (rows.map (sparseRowDot · folded.zVec)).getD i 0
        = (rows.map (sparseRowDot · self.zVec)).getD i 0
          + (rows.map (sparseRowDot · other.zVec)).getD i 0 * r := by
    intro rows i hi
    rw [mapRowDot_getD rows _ i hi, mapRowDot_getD rows _ i hi,
      mapRowDot_getD rows _ i hi, hz]
    exact sparseRowDot_fold r _ self.zVec other.zVec hzlen
  have htlen : (self.crossTermVec other).length = self.shape.num_constraints := by
    simp only [R1CS.crossTermVec, List.length_map, List.length_zip,
      R1CS.evalAz, R1CS.evalBz, R1CS.evalCz, hshape]
    omega
  intro idx hidx
  rw [hsh] at hidx
  have hidxA : idx < self.shape.a.length := by omega
  have hidxB : idx < self.shape.b.length := by omega
  have hidxC : idx < self.shape.c.length := by omega
  have hAz : folded.evalAz.getD idx 0
      = self.evalAz.getD idx 0 + other.evalAz.getD idx 0 * r := by
    simp only [R1CS.evalAz, hsh, hshape]
    exact hrows self.shape.a idx hidxA
  have hBz : folded.evalBz.getD idx 0
      = self.evalBz.getD idx 0 + other.evalBz.getD idx 0 * r := by
    simp only [R1CS.evalBz, hsh, hshape]
    exact hrows self.shape.b idx hidxB
  have hCz : folded.evalCz.getD idx 0
      = self.evalCz.getD idx 0 + other.evalCz.getD idx 0 * r := by
    simp only [R1CS.evalCz, hsh, hshape]
    exact hrows self.shape.c idx hidxC
  have hEd : folded.E.getD idx 0
      = self.E.getD idx 0 + r * (self.crossTermVec other).getD idx 0 := by
    rw [hE', ht]
    exact getD_zipWith_errChallenge r self.E (self.crossTermVec other)
      (by omega) idx
  have htd := R1CS.crossTermVec_getD self other idx (by omega)
  have hs := hself idx hidx
  have ho := hother idx (by rw [hshape]; exact hidx)
  rw [hu, getD_eq_zero_of_forall_zero hE idx] at ho
  rw [hAz, hBz, hCz, hEd, htd, hu']
  linear_combination hs + r ^ 2 * ho

/-- Witness for C1 (amended): folding the satisfied `exSelf` into itself — a
strict second operand — keeps the row relation. -/
theorem fold_preserves_relation_witness : exFoldedSelf.satisfiesRelation :=
  fold_preserves_relation squeezeOne exSelf exSelf exGens 0 G1Affine.identity
    exFoldedSelf rfl rfl rfl (by decide) (by decide) (by decide) (by decide)
    (by decide) (by decide) rfl (by decide) (by decide)


end Supernova
